import Mathlib

/-!
Verification of the `empty_statistics_client` latency-measurement harness
(`polymetis/src/clients/empty_statistics_client.cpp`).

The client opens a shared-memory region holding named robot-state fields,
issues one `InitRobotClient` RPC, then loops `num_requests` times: each
iteration copies the named fields, zero-fills the copies, sends one
`ControlUpdate` RPC with a default-constructed `RobotState`, records the
round-trip time in a circular buffer of `log_iters = 3000` samples, warns
on samples above 1 ms, and every 3000 iterations reports window statistics
and folds them into running global statistics.

Floating-point values are modelled as rationals (exact arithmetic); the
RPC boundary and the wall clock are modelled as input oracles; fatal
`assert` failures and crashing null dereferences are modelled as an
aborted result (`none`).
-/

/-- `log_iters` in the source: the window size of the circular sample buffer. -/
def logIters : ℕ := 3000

/-- A value stored in a named shared-memory field: the `ShmTimestamp`
struct (modelled as its time value) or a `ShmVectorFloat`. -/
inductive ShmField where
  | timestamp (t : ℚ)
  | vec (v : List ℚ)
deriving DecidableEq

/-- The `RobotStateSharedMemory` managed segment: an association of field
names to stored values.  A name that is absent models
`segment_.find(...)` returning a null pointer. -/
def ShmSegment : Type := List (String × ShmField)

instance : DecidableEq ShmSegment := by
  unfold ShmSegment
  infer_instance

/-- `segment_.find<ShmTimestamp>(name).first`: `some` iff the name is
bound to a timestamp field, otherwise a null pointer (`none`). -/
def findTimestamp (seg : ShmSegment) (name : String) : Option ℚ :=
  match List.lookup name seg with
  | some (ShmField.timestamp t) => some t
  | _ => none

/-- `segment_.find<ShmVectorFloat>(name).first`: `some` iff the name is
bound to a vector field, otherwise a null pointer (`none`). -/
def findVec (seg : ShmSegment) (name : String) : Option (List ℚ) :=
  match List.lookup name seg with
  | some (ShmField.vec v) => some v
  | _ => none

/-- The protobuf `RobotState` message; `RobotState dummy_state;` in
`SendCommand` default-constructs every field. -/
structure RobotState where
  timestamp : ℚ := 0
  joint_positions : List ℚ := []
  joint_velocities : List ℚ := []
  joint_torques_measured : List ℚ := []
  joint_torques_external : List ℚ := []
deriving DecidableEq

/-- The default-constructed `RobotState dummy_state`. -/
def defaultRobotState : RobotState := {}

/-- `setTimestampToNow(&timestamp)`: overwrites the (copied) timestamp
struct with the current wall-clock time. -/
def setTimestampToNow (_t : ℚ) (now : ℚ) : ℚ := now

/-- The zero-fill loop in `SendCommand`: `v[i] = 0.0` for
`i = 0 .. num_dofs - 1`, applied to the local copy of a field. -/
def zeroFill (v : List ℚ) (num_dofs : ℕ) : List ℚ :=
  (List.range num_dofs).foldl (fun acc i => acc.set i 0) v

/-- `TestGrpcClient::SendCommand(num_dofs)`.  The five named fields are
looked up and the resulting pointers dereferenced with no null check: a
missing field is a crash, modelled as `none`.  The copies are stamped and
zero-filled (the copies are local, so this does not reach the request),
then `ControlUpdate` is called with the default-constructed state; `ok`
models `status.ok()`.  The returned pair is (request payload, status). -/
def sendCommand (seg : ShmSegment) (num_dofs : ℕ) (now : ℚ) (ok : Bool) :
    Option (RobotState × Bool) :=
  let dummy_state : RobotState := {}
  match findTimestamp seg "shm_timestamp",
        findVec seg "joint_positions",
        findVec seg "joint_velocities",
        findVec seg "joint_torques_measured",
        findVec seg "joint_torques_external" with
  | some ts, some jp, some jv, some jtm, some jte =>
    let _stamped := setTimestampToNow ts now
    let _jp := zeroFill jp num_dofs
    let _jv := zeroFill jv num_dofs
    let _jtm := zeroFill jtm num_dofs
    let _jte := zeroFill jte num_dofs
    some (dummy_state, ok)
  | _, _, _, _, _ => none

/-- All five named fields used by `SendCommand` are present (with the
types the source looks them up at). -/
def segOk (seg : ShmSegment) : Bool :=
  (findTimestamp seg "shm_timestamp").isSome &&
  (findVec seg "joint_positions").isSome &&
  (findVec seg "joint_velocities").isSome &&
  (findVec seg "joint_torques_measured").isSome &&
  (findVec seg "joint_torques_external").isSome

theorem sendCommand_eq (seg : ShmSegment) (d : ℕ) (now : ℚ) (ok : Bool) :
    sendCommand seg d now ok =
      if segOk seg then some (defaultRobotState, ok) else none := by
  unfold sendCommand segOk defaultRobotState
  rcases h1 : findTimestamp seg "shm_timestamp" with _ | t <;>
    rcases h2 : findVec seg "joint_positions" with _ | jp <;>
    rcases h3 : findVec seg "joint_velocities" with _ | jv <;>
    rcases h4 : findVec seg "joint_torques_measured" with _ | jtm <;>
    rcases h5 : findVec seg "joint_torques_external" with _ | jte <;>
    simp [h1, h2, h3, h4, h5]

/-! ## The statistics state and per-iteration step -/

/-- The loop-local statistics state of the `TestGrpcClient` constructor:
the `times_taken` circular buffer and the three global accumulators (with
their source initial values `-99999.0`, `99999.0`, `0.0`). -/
structure LoopState where
  times_taken : List ℚ
  global_max : ℚ
  global_min : ℚ
  global_avg : ℚ
deriving DecidableEq

/-- The state at loop entry. -/
def initState : LoopState := ⟨[], -99999, 99999, 0⟩

/-- Recording sample `x` of iteration `i`:
`if (i % log_iters >= times_taken.size()) push_back else at(i % log_iters) =`. -/
def recordSample (buf : List ℚ) (i : ℕ) (x : ℚ) : List ℚ :=
  if buf.length ≤ i % logIters then buf ++ [x] else buf.set (i % logIters) x

/-- `*std::max_element(begin, end)` on a nonempty list (0 on the empty
list, which the source never queries). -/
def listMax : List ℚ → ℚ
  | [] => 0
  | x :: xs => xs.foldl max x

/-- `*std::min_element(begin, end)` on a nonempty list. -/
def listMin : List ℚ → ℚ
  | [] => 0
  | x :: xs => xs.foldl min x

/-- The window-sum loop: `for (j = 0; j < log_iters; j++) sum += times_taken[j]`,
with the window size as explicit parameter `N`. -/
def windowSum (N : ℕ) (buf : List ℚ) : ℚ :=
  ((List.range N).map (fun j => buf.getD j 0)).sum

/-- The per-window report `{max, min, avg}` printed at a window closure. -/
structure WindowStats where
  max : ℚ
  min : ℚ
  mean : ℚ
deriving DecidableEq

/-- The window statistics computed at a closure: extrema over the buffer
and `avg_time_taken = sum / log_iters` (window size `N`). -/
def snapshotWindow (N : ℕ) (buf : List ℚ) : WindowStats :=
  ⟨listMax buf, listMin buf, windowSum N buf / (N : ℚ)⟩

/-- The running global report `{global_max, global_min, global_avg}`. -/
structure GlobalStats where
  max : ℚ
  min : ℚ
  mean : ℚ
deriving DecidableEq

/-- Initial global accumulators of the source. -/
def initGlobal : GlobalStats := ⟨-99999, 99999, 0⟩

/-- The Aggregate Combiner update at the `k`-th window closure
(`k = num_logs_so_far = i / log_iters`):
running extrema plus
`global_avg = ((num_logs_so_far - 1) * global_avg + avg_time_taken) / num_logs_so_far`. -/
def combine (g : GlobalStats) (k : ℕ) (w : WindowStats) : GlobalStats :=
  ⟨if w.max > g.max then w.max else g.max,
   if w.min < g.min then w.min else g.min,
   (((k : ℚ) - 1) * g.mean + w.mean) / (k : ℚ)⟩

/-- The global accumulators of a loop state, as printed. -/
def globalOf (s : LoopState) : GlobalStats :=
  ⟨s.global_max, s.global_min, s.global_avg⟩

/-- The statistics part of one loop iteration `i` with measured time `x`:
record the sample, and on a window boundary (`i > 0 && i % log_iters == 0`)
fold the window statistics into the global accumulators. -/
def stepState (s : LoopState) (i : ℕ) (x : ℚ) : LoopState :=
  let buf := recordSample s.times_taken i x
  if 0 < i ∧ i % logIters = 0 then
    let w := snapshotWindow logIters buf
    let g := combine (globalOf s) (i / logIters) w
    ⟨buf, g.max, g.min, g.mean⟩
  else
    ⟨buf, s.global_max, s.global_min, s.global_avg⟩

/-! ## Observable events and the dispatch loop -/

/-- Observable actions of a run: the two RPC requests reaching the RPC
boundary, and the three kinds of console report (each tagged with its
iteration index). -/
inductive Event where
  | initRobotClient
  | controlUpdate (i : ℕ) (req : RobotState)
  | warning (i : ℕ) (x : ℚ)
  | windowReport (i : ℕ) (w : WindowStats)
  | globalReport (i : ℕ) (g : GlobalStats)
deriving DecidableEq

/-- The console events of iteration `i` after the `ControlUpdate` round
trip succeeded with measured time `x`, from pre-iteration state `s`: a
warning iff `x > 1.0`, then the window/global report pair on a boundary. -/
def postEvents (s : LoopState) (i : ℕ) (x : ℚ) : List Event :=
  let buf := recordSample s.times_taken i x
  (if x > 1 then [Event.warning i x] else []) ++
  (if 0 < i ∧ i % logIters = 0 then
    let w := snapshotWindow logIters buf
    [Event.windowReport i w,
     Event.globalReport i (combine (globalOf s) (i / logIters) w)]
  else [])

/-- The request loop of the `TestGrpcClient` constructor, from iteration
`i` with `fuel` iterations left.  A crashing `SendCommand` (missing
field) aborts with no event; a non-ok status aborts right after the
`ControlUpdate` request (`assert(SendCommand(num_dofs))`); otherwise the
sample is recorded and reported and the loop proceeds.  `rpcOk t` is the
oracle for the status of the `t`-th `ControlUpdate`; `ms t` is the
measured round-trip time; `clock t` the wall clock.  Result `none` models
a fatal abort. -/
def runLoop (seg : ShmSegment) (d : ℕ) (rpcOk : ℕ → Bool) (ms clock : ℕ → ℚ) :
    (fuel : ℕ) → (i : ℕ) → LoopState → List Event × Option LoopState
  | 0, _, s => ([], some s)
  | fuel + 1, i, s =>
    match sendCommand seg d (clock i) (rpcOk i) with
    | none => ([], none)
    | some (req, ok) =>
      if ok then
        let rest := runLoop seg d rpcOk ms clock fuel (i + 1) (stepState s i (ms i))
        (Event.controlUpdate i req :: (postEvents s i (ms i) ++ rest.1), rest.2)
      else ([Event.controlUpdate i req], none)

/-- The whole `TestGrpcClient` constructor: metadata load + parse asserts
(`metadataOk`), the `InitRobotClient` round trip (`initOk` models
`status.ok()`), opening the `RobotStateSharedMemory` segment with
`open_only` (`none` models an absent region, which throws), then the
request loop.  Note the order: the init RPC is issued before the segment
is opened. -/
def runClient (metadataOk initOk : Bool) (seg? : Option ShmSegment) (d : ℕ)
    (rpcOk : ℕ → Bool) (ms clock : ℕ → ℚ) (num_requests : ℕ) :
    List Event × Option LoopState :=
  if metadataOk then
    if initOk then
      match seg? with
      | none => ([Event.initRobotClient], none)
      | some seg =>
        let r := runLoop seg d rpcOk ms clock num_requests 0 initState
        (Event.initRobotClient :: r.1, r.2)
    else ([Event.initRobotClient], none)
  else ([], none)

/-! ## Derived descriptions of a run -/

/-- The `times_taken` buffer after the first `n` iterations have recorded
their samples. -/
def bufAfter (ms : ℕ → ℚ) : ℕ → List ℚ
  | 0 => []
  | n + 1 => recordSample (bufAfter ms n) n (ms n)

/-- The statistics state after the first `n` successful iterations. -/
def stateAfter (ms : ℕ → ℚ) : ℕ → LoopState
  | 0 => initState
  | n + 1 => stepState (stateAfter ms n) n (ms n)

/-- The event trace of `fuel` successful iterations starting at
iteration `i` of a run that was successful from iteration 0. -/
def traceFrom (ms : ℕ → ℚ) : (fuel : ℕ) → (i : ℕ) → List Event
  | 0, _ => []
  | fuel + 1, i =>
    Event.controlUpdate i defaultRobotState ::
      (postEvents (stateAfter ms i) i (ms i) ++ traceFrom ms fuel (i + 1))

theorem stateAfter_times_taken (ms : ℕ → ℚ) (n : ℕ) :
    (stateAfter ms n).times_taken = bufAfter ms n := by
  induction n with
  | zero => rfl
  | succ n ih =>
    show (stepState (stateAfter ms n) n (ms n)).times_taken = _
    rw [bufAfter, ← ih]
    unfold stepState
    split <;> rfl

/-- A run whose `ControlUpdate` statuses are all ok between `i` and
`i + fuel` proceeds to completion, producing exactly the per-iteration
trace blocks. -/
theorem runLoop_ok (seg : ShmSegment) (d : ℕ) (rpcOk : ℕ → Bool)
    (ms clock : ℕ → ℚ) (hseg : segOk seg = true) :
    ∀ fuel i, (∀ t, i ≤ t → t < i + fuel → rpcOk t = true) →
      runLoop seg d rpcOk ms clock fuel i (stateAfter ms i) =
        (traceFrom ms fuel i, some (stateAfter ms (i + fuel))) := by
  intro fuel
  induction fuel with
  | zero => intro i _; simp [runLoop, traceFrom]
  | succ fuel ih =>
    intro i hok
    have hi : rpcOk i = true := hok i le_rfl (by omega)
    have hrest := ih (i + 1) (fun t h1 h2 => hok t (by omega) (by omega))
    show runLoop seg d rpcOk ms clock (fuel + 1) i (stateAfter ms i) = _
    rw [runLoop, sendCommand_eq, hseg]
    simp only [if_true, hi]
    have hstep : stepState (stateAfter ms i) i (ms i) = stateAfter ms (i + 1) := rfl
    rw [hstep, hrest]
    have harith : i + (fuel + 1) = i + 1 + fuel := by omega
    rw [harith, traceFrom]

/-- A run whose first non-ok `ControlUpdate` status is at iteration `k`
aborts there: the trace is the successful blocks before `k` followed by
the lone `ControlUpdate` request of iteration `k`, and nothing of
iteration `k` (or later) is recorded or reported. -/
theorem runLoop_abort (seg : ShmSegment) (d : ℕ) (rpcOk : ℕ → Bool)
    (ms clock : ℕ → ℚ) (k : ℕ) (hseg : segOk seg = true)
    (hk : rpcOk k = false) :
    ∀ fuel i, i ≤ k → k < i + fuel →
      (∀ t, i ≤ t → t < k → rpcOk t = true) →
      runLoop seg d rpcOk ms clock fuel i (stateAfter ms i) =
        (traceFrom ms (k - i) i ++ [Event.controlUpdate k defaultRobotState],
         none) := by
  intro fuel
  induction fuel with
  | zero => intro i _ h2 _; omega
  | succ fuel ih =>
    intro i h1 h2 hok
    show runLoop seg d rpcOk ms clock (fuel + 1) i (stateAfter ms i) = _
    rw [runLoop, sendCommand_eq, hseg]
    rcases Nat.eq_or_lt_of_le h1 with heq | hlt
    · subst heq
      simp only [if_true, hk]
      simp [traceFrom]
    · have hi : rpcOk i = true := hok i le_rfl hlt
      simp only [if_true, hi]
      have hstep : stepState (stateAfter ms i) i (ms i) = stateAfter ms (i + 1) := rfl
      rw [hstep, ih (i + 1) (by omega) (by omega)
        (fun t ht1 ht2 => hok t (by omega) ht2)]
      have hki : k - i = (k - (i + 1)) + 1 := by omega
      rw [hki, traceFrom]
      simp

/-- With a missing named field, the first `SendCommand` crashes on a null
dereference: no event at all is produced by the loop. -/
theorem runLoop_crash (seg : ShmSegment) (d : ℕ) (rpcOk : ℕ → Bool)
    (ms clock : ℕ → ℚ) (hseg : segOk seg = false) (fuel i : ℕ)
    (s : LoopState) (hfuel : 0 < fuel) :
    runLoop seg d rpcOk ms clock fuel i s = ([], none) := by
  match fuel with
  | 0 => omega
  | fuel + 1 =>
    rw [runLoop, sendCommand_eq, hseg]
    simp

/-! ## The circular buffer never reports stale or uninitialized slots -/

/-- The iteration whose sample occupies slot `j` of the buffer after `n`
iterations: the latest `t < n` with `t % logIters = j`. -/
def lastWrite (n j : ℕ) : ℕ :=
  if j < n % logIters then n / logIters * logIters + j
  else (n / logIters - 1) * logIters + j

theorem lastWrite_stable (n j : ℕ) (hj : j < min n logIters)
    (hne : j ≠ n % logIters) : lastWrite (n + 1) j = lastWrite n j := by
  simp only [lastWrite, logIters] at *
  split <;> split <;> omega

theorem lastWrite_write (n : ℕ) : lastWrite (n + 1) (n % logIters) = n := by
  simp only [lastWrite, logIters]
  split <;> omega

theorem getD_append_lt (l : List ℚ) (x : ℚ) (j : ℕ) (h : j < l.length) :
    (l ++ [x]).getD j 0 = l.getD j 0 := by
  rw [List.getD_eq_getElem?_getD, List.getD_eq_getElem?_getD,
    List.getElem?_append_left h]

theorem getD_append_len (l : List ℚ) (x : ℚ) :
    (l ++ [x]).getD l.length 0 = x := by
  rw [List.getD_eq_getElem?_getD, List.getElem?_concat_length]
  rfl

theorem getD_set_self (l : List ℚ) (m : ℕ) (x : ℚ) (h : m < l.length) :
    (l.set m x).getD m 0 = x := by
  rw [List.getD_eq_getElem?_getD, List.getElem?_set_self]
  · rfl
  · exact h

theorem getD_set_ne (l : List ℚ) (m j : ℕ) (x : ℚ) (h : m ≠ j) :
    (l.set m x).getD j 0 = l.getD j 0 := by
  rw [List.getD_eq_getElem?_getD, List.getD_eq_getElem?_getD,
    List.getElem?_set_ne h]

theorem bufAfter_length (ms : ℕ → ℚ) (n : ℕ) :
    (bufAfter ms n).length = min n logIters := by
  induction n with
  | zero => simp [bufAfter]
  | succ n ih =>
    rw [bufAfter]
    unfold recordSample
    rw [ih]
    by_cases h : n < logIters
    · rw [if_pos (by simp only [logIters] at *; omega)]
      simp only [List.length_append, List.length_singleton, ih]
      simp only [logIters] at *
      omega
    · rw [if_neg (by simp only [logIters] at *; omega)]
      simp only [List.length_set, ih]
      simp only [logIters] at *
      omega

theorem bufAfter_getD (ms : ℕ → ℚ) (n j : ℕ) (hj : j < min n logIters) :
    (bufAfter ms n).getD j 0 = ms (lastWrite n j) := by
  induction n with
  | zero => omega
  | succ n ih =>
    rw [bufAfter]
    unfold recordSample
    rw [bufAfter_length]
    by_cases h : n < logIters
    · rw [if_pos (by simp only [logIters] at *; omega)]
      rcases Nat.lt_or_ge j n with hjn | hjn
      · rw [getD_append_lt _ _ _ (by rw [bufAfter_length]; omega)]
        rw [ih (by simp only [logIters] at *; omega)]
        rw [lastWrite_stable n j (by simp only [logIters] at *; omega)
          (by simp only [logIters] at *; omega)]
      · have hje : j = n := by simp only [logIters] at *; omega
        have hlen : (bufAfter ms n).length = n := by
          rw [bufAfter_length]; simp only [logIters] at *; omega
        have hx := getD_append_len (bufAfter ms n) (ms n)
        rw [hlen] at hx
        rw [hje, hx]
        have h2 : lastWrite (n + 1) n = n := by
          simp only [lastWrite, logIters] at *
          split <;> omega
        rw [h2]
    · rw [if_neg (by simp only [logIters] at *; omega)]
      by_cases hje : j = n % logIters
      · subst hje
        rw [getD_set_self _ _ _ (by rw [bufAfter_length]; simp only [logIters] at *; omega)]
        rw [lastWrite_write]
      · rw [getD_set_ne _ _ _ _ (fun hx => hje hx.symm)]
        rw [ih (by simp only [logIters] at *; omega)]
        rw [lastWrite_stable n j (by simp only [logIters] at *; omega) hje]

/-- At a window closure `i` (that is, `i > 0` and `i % logIters = 0`) the
buffer holds the sample of iteration `i` in slot 0 and the samples of
iterations `i - logIters + j` in the slots `j = 1, ..., logIters - 1`. -/
theorem list_eq_range_map (g : ℕ → ℚ) :
    ∀ (L : List ℚ), (∀ j, j < L.length → L.getD j 0 = g j) →
      L = (List.range L.length).map g := by
  intro L
  induction L generalizing g with
  | nil => intro _; rfl
  | cons x t ih =>
    intro h
    have hx : x = g 0 := by
      have hv := h 0 (by simp)
      simpa using hv
    have ht : t = (List.range t.length).map (g ∘ Nat.succ) := by
      apply ih
      intro j hj
      have hgv := h (j + 1) (by simp only [List.length_cons]; omega)
      simpa [Function.comp] using hgv
    rw [List.length_cons, List.range_succ_eq_map, List.map_cons, List.map_map,
      ← hx, ← ht]

/-- At a window closure `i` (that is, `i > 0` and `i % logIters = 0`) the
buffer holds the sample of iteration `i` in slot 0 and the samples of
iterations `i - logIters + j` in the slots `j = 1, ..., logIters - 1`. -/
theorem bufAfter_closure (ms : ℕ → ℚ) (i : ℕ) (h0 : 0 < i)
    (hm : i % logIters = 0) :
    bufAfter ms (i + 1) =
      ms i :: (List.range (logIters - 1)).map (fun j => ms (i - logIters + 1 + j)) := by
  have hNi : logIters ≤ i := by simp only [logIters] at *; omega
  have hlen : (bufAfter ms (i + 1)).length = logIters := by
    rw [bufAfter_length]; simp only [logIters] at *; omega
  have hchar := list_eq_range_map (fun j => ms (lastWrite (i + 1) j))
    (bufAfter ms (i + 1))
    (fun j hj => bufAfter_getD ms (i + 1) j (by rw [hlen] at hj; omega))
  rw [hlen] at hchar
  have hN : logIters = (logIters - 1) + 1 := by simp only [logIters]
  have hrange : List.range logIters = 0 :: (List.range (logIters - 1)).map Nat.succ := by
    conv_lhs => rw [hN]
    rw [List.range_succ_eq_map]
  rw [hchar, hrange, List.map_cons, List.map_map]
  have h2 : lastWrite (i + 1) 0 = i := by
    simp only [lastWrite, logIters] at *
    split <;> omega
  rw [h2]
  refine congrArg (fun l => ms i :: l) ?_
  apply List.map_congr_left
  intro j hj
  rw [List.mem_range] at hj
  show ms (lastWrite (i + 1) (j + 1)) = ms (i - logIters + 1 + j)
  have h3 : lastWrite (i + 1) (j + 1) = i - logIters + 1 + j := by
    simp only [lastWrite, logIters] at *
    split <;> omega
  rw [h3]

/-- At a window closure the multiset of buffer entries is exactly the
samples of the `logIters` most recent iterations `i - logIters + 1 .. i`. -/
theorem bufAfter_closure_perm (ms : ℕ → ℚ) (i : ℕ) (h0 : 0 < i)
    (hm : i % logIters = 0) :
    (bufAfter ms (i + 1)).Perm
      ((List.range logIters).map (fun j => ms (i - logIters + 1 + j))) := by
  have hNi : logIters ≤ i := by simp only [logIters] at *; omega
  rw [bufAfter_closure ms i h0 hm]
  have hsplit : (List.range logIters).map (fun j => ms (i - logIters + 1 + j)) =
      ((List.range (logIters - 1)).map (fun j => ms (i - logIters + 1 + j))) ++
        [ms i] := by
    have hN : logIters = (logIters - 1) + 1 := by
      simp only [logIters]
    have hrange : List.range logIters = List.range (logIters - 1) ++ [logIters - 1] := by
      conv_lhs => rw [hN]
      rw [List.range_succ]
    rw [hrange, List.map_append]
    simp only [List.map_singleton]
    have : i - logIters + 1 + (logIters - 1) = i := by
      simp only [logIters] at *; omega
    rw [this]
  rw [hsplit]
  exact (List.perm_append_singleton _ _).symm

/-! ## Locating events in the trace -/

/-- Is this event a window report line? -/
def isWindowReport : Event → Bool
  | Event.windowReport _ _ => true
  | _ => false

/-- Is this event a global report line? -/
def isGlobalReport : Event → Bool
  | Event.globalReport _ _ => true
  | _ => false

/-- Is this event a warning line? -/
def isWarning : Event → Bool
  | Event.warning _ _ => true
  | _ => false

theorem windowReport_mem_postEvents (s : LoopState) (i j : ℕ) (x : ℚ)
    (w : WindowStats) :
    Event.windowReport j w ∈ postEvents s i x ↔
      (0 < i ∧ i % logIters = 0) ∧ j = i ∧
        w = snapshotWindow logIters (recordSample s.times_taken i x) := by
  unfold postEvents
  by_cases hw : x > 1 <;> by_cases hc : 0 < i ∧ i % logIters = 0 <;>
    simp [hw, hc]

theorem warning_mem_postEvents (s : LoopState) (i j : ℕ) (x y : ℚ) :
    Event.warning j y ∈ postEvents s i x ↔ 1 < x ∧ j = i ∧ y = x := by
  unfold postEvents
  by_cases hw : x > 1 <;> by_cases hc : 0 < i ∧ i % logIters = 0 <;>
    simp [hw, hc]

theorem windowReport_mem_traceFrom (ms : ℕ → ℚ) :
    ∀ (fuel i j : ℕ) (w : WindowStats),
      Event.windowReport j w ∈ traceFrom ms fuel i ↔
        i ≤ j ∧ j < i + fuel ∧ 0 < j ∧ j % logIters = 0 ∧
          w = snapshotWindow logIters (bufAfter ms (j + 1)) := by
  intro fuel
  induction fuel with
  | zero => intro i j w; simp [traceFrom]; omega
  | succ fuel ih =>
    intro i j w
    rw [traceFrom]
    simp only [List.mem_cons, List.mem_append]
    rw [windowReport_mem_postEvents, ih, stateAfter_times_taken]
    have hbuf : recordSample (bufAfter ms i) i (ms i) = bufAfter ms (i + 1) := rfl
    rw [hbuf]
    constructor
    · rintro (hcu | ⟨⟨h1, h2⟩, rfl, rfl⟩ | ⟨h1, h2, h3, h4, h5⟩)
      · exact absurd hcu (by simp)
      · exact ⟨le_rfl, by omega, h1, h2, rfl⟩
      · exact ⟨by omega, by omega, h3, h4, h5⟩
    · rintro ⟨h1, h2, h3, h4, h5⟩
      rcases Nat.eq_or_lt_of_le h1 with rfl | hlt
      · exact Or.inr (Or.inl ⟨⟨h3, h4⟩, rfl, h5⟩)
      · exact Or.inr (Or.inr ⟨by omega, by omega, h3, h4, h5⟩)

theorem warning_mem_traceFrom (ms : ℕ → ℚ) :
    ∀ (fuel i j : ℕ) (y : ℚ),
      Event.warning j y ∈ traceFrom ms fuel i ↔
        i ≤ j ∧ j < i + fuel ∧ y = ms j ∧ 1 < ms j := by
  intro fuel
  induction fuel with
  | zero => intro i j y; simp [traceFrom]; omega
  | succ fuel ih =>
    intro i j y
    rw [traceFrom]
    simp only [List.mem_cons, List.mem_append]
    rw [warning_mem_postEvents, ih]
    constructor
    · rintro (hcu | ⟨h1, rfl, rfl⟩ | ⟨h1, h2, h3, h4⟩)
      · exact absurd hcu (by simp)
      · exact ⟨le_rfl, by omega, rfl, h1⟩
      · exact ⟨by omega, by omega, h3, h4⟩
    · rintro ⟨h1, h2, h3, h4⟩
      rcases Nat.eq_or_lt_of_le h1 with rfl | hlt
      · exact Or.inr (Or.inl ⟨h4, rfl, h3⟩)
      · exact Or.inr (Or.inr ⟨by omega, by omega, h3, h4⟩)

theorem controlUpdate_mem_traceFrom (ms : ℕ → ℚ) :
    ∀ (fuel i j : ℕ) (r : RobotState),
      Event.controlUpdate j r ∈ traceFrom ms fuel i ↔
        i ≤ j ∧ j < i + fuel ∧ r = defaultRobotState := by
  intro fuel
  induction fuel with
  | zero => intro i j r; simp [traceFrom]; omega
  | succ fuel ih =>
    intro i j r
    rw [traceFrom]
    simp only [List.mem_cons, List.mem_append]
    rw [ih]
    have hpost : Event.controlUpdate j r ∈ postEvents (stateAfter ms i) i (ms i) ↔ False := by
      unfold postEvents
      by_cases hw : ms i > 1 <;> by_cases hc : 0 < i ∧ i % logIters = 0 <;>
        simp [hw, hc]
    rw [hpost]
    constructor
    · rintro (hcu | hfalse | ⟨h1, h2, h3⟩)
      · have : j = i ∧ r = defaultRobotState := by
          cases hcu; exact ⟨rfl, rfl⟩
        exact ⟨this.1 ▸ le_rfl, by omega, this.2⟩
      · exact absurd hfalse (by simp)
      · exact ⟨by omega, by omega, h3⟩
    · rintro ⟨h1, h2, h3⟩
      rcases Nat.eq_or_lt_of_le h1 with rfl | hlt
      · exact Or.inl (by rw [h3])
      · exact Or.inr (Or.inr ⟨by omega, by omega, h3⟩)

/-! ## Counting window reports and warnings -/

/-- The number of window closures among iterations `i, ..., i + fuel - 1`. -/
def countClosures : (fuel : ℕ) → (i : ℕ) → ℕ
  | 0, _ => 0
  | fuel + 1, i =>
    (if 0 < i ∧ i % logIters = 0 then 1 else 0) + countClosures fuel (i + 1)

/-- The number of over-threshold samples among iterations `i, ..., i + fuel - 1`. -/
def countOver (ms : ℕ → ℚ) : (fuel : ℕ) → (i : ℕ) → ℕ
  | 0, _ => 0
  | fuel + 1, i => (if 1 < ms i then 1 else 0) + countOver ms fuel (i + 1)

theorem filter_windowReport_postEvents (s : LoopState) (i : ℕ) (x : ℚ) :
    ((postEvents s i x).filter isWindowReport).length =
      if 0 < i ∧ i % logIters = 0 then 1 else 0 := by
  unfold postEvents
  by_cases hw : x > 1 <;> by_cases hc : 0 < i ∧ i % logIters = 0 <;>
    simp [hw, hc, isWindowReport]

theorem filter_globalReport_postEvents (s : LoopState) (i : ℕ) (x : ℚ) :
    ((postEvents s i x).filter isGlobalReport).length =
      if 0 < i ∧ i % logIters = 0 then 1 else 0 := by
  unfold postEvents
  by_cases hw : x > 1 <;> by_cases hc : 0 < i ∧ i % logIters = 0 <;>
    simp [hw, hc, isGlobalReport]

theorem filter_warning_postEvents (s : LoopState) (i : ℕ) (x : ℚ) :
    ((postEvents s i x).filter isWarning).length = if 1 < x then 1 else 0 := by
  unfold postEvents
  by_cases hw : x > 1 <;> by_cases hc : 0 < i ∧ i % logIters = 0 <;>
    simp [hw, hc, isWarning]

theorem filter_windowReport_traceFrom (ms : ℕ → ℚ) :
    ∀ (fuel i : ℕ),
      ((traceFrom ms fuel i).filter isWindowReport).length = countClosures fuel i := by
  intro fuel
  induction fuel with
  | zero => intro i; rfl
  | succ fuel ih =>
    intro i
    rw [traceFrom, countClosures]
    have hcu : isWindowReport (Event.controlUpdate i defaultRobotState) = false := rfl
    simp only [List.filter_cons, List.filter_append, hcu, Bool.false_eq_true,
      if_false, List.length_append]
    rw [filter_windowReport_postEvents, ih]

theorem filter_globalReport_traceFrom (ms : ℕ → ℚ) :
    ∀ (fuel i : ℕ),
      ((traceFrom ms fuel i).filter isGlobalReport).length = countClosures fuel i := by
  intro fuel
  induction fuel with
  | zero => intro i; rfl
  | succ fuel ih =>
    intro i
    rw [traceFrom, countClosures]
    have hcu : isGlobalReport (Event.controlUpdate i defaultRobotState) = false := rfl
    simp only [List.filter_cons, List.filter_append, hcu, Bool.false_eq_true,
      if_false, List.length_append]
    rw [filter_globalReport_postEvents, ih]

theorem filter_warning_traceFrom (ms : ℕ → ℚ) :
    ∀ (fuel i : ℕ),
      ((traceFrom ms fuel i).filter isWarning).length = countOver ms fuel i := by
  intro fuel
  induction fuel with
  | zero => intro i; rfl
  | succ fuel ih =>
    intro i
    rw [traceFrom, countOver]
    have hcu : isWarning (Event.controlUpdate i defaultRobotState) = false := rfl
    simp only [List.filter_cons, List.filter_append, hcu, Bool.false_eq_true,
      if_false, List.length_append]
    rw [filter_warning_postEvents, ih]

theorem countClosures_formula :
    ∀ (fuel i : ℕ), 1 ≤ i →
      countClosures fuel i = (i + fuel - 1) / logIters - (i - 1) / logIters := by
  intro fuel
  induction fuel with
  | zero =>
    intro i hi
    show 0 = (i + 0 - 1) / logIters - (i - 1) / logIters
    simp only [logIters]
    omega
  | succ fuel ih =>
    intro i hi
    rw [countClosures, ih (i + 1) (by omega)]
    simp only [logIters] at *
    split <;> omega

theorem countClosures_from_zero (fuel : ℕ) (h : 1 ≤ fuel) :
    countClosures fuel 0 = (fuel - 1) / logIters := by
  match fuel, h with
  | fuel + 1, _ =>
    rw [countClosures, countClosures_formula fuel 1 le_rfl]
    have hz : (if 0 < 0 ∧ 0 % logIters = 0 then 1 else 0) = 0 := by simp
    rw [hz]
    simp only [logIters]
    omega

/-! ## The Aggregate Combiner in isolation -/

/-- Successive `combine` calls: folding the windows `ws` into `g`, the
ordinal of the first combine being `k + 1` (matching
`num_logs_so_far = i / log_iters` at the closures of the dispatch loop). -/
def combineFrom (g : GlobalStats) (k : ℕ) : List WindowStats → GlobalStats
  | [] => g
  | w :: ws => combineFrom (combine g (k + 1) w) (k + 1) ws

/-- The global statistics after combining the windows `ws` in closure
order, starting from the source's initial accumulators. -/
def combineAll (ws : List WindowStats) : GlobalStats :=
  combineFrom initGlobal 0 ws

theorem combineFrom_mean :
    ∀ (ws : List WindowStats) (g : GlobalStats) (k : ℕ), 1 ≤ k →
      (combineFrom g k ws).mean =
        ((k : ℚ) * g.mean + (ws.map WindowStats.mean).sum) /
          ((k : ℚ) + (ws.length : ℚ)) := by
  intro ws
  induction ws with
  | nil =>
    intro g k hk
    have hk0 : (k : ℚ) ≠ 0 := Nat.cast_ne_zero.mpr (by omega)
    simp [combineFrom, hk0]
  | cons w ws ih =>
    intro g k hk
    have hk1 : ((k : ℚ) + 1) ≠ 0 := by positivity
    rw [combineFrom, ih _ (k + 1) (by omega)]
    simp only [combine, List.map_cons, List.sum_cons, List.length_cons]
    push_cast
    field_simp
    ring

theorem combineAll_mean (ws : List WindowStats) (h : ws ≠ []) :
    (combineAll ws).mean = (ws.map WindowStats.mean).sum / (ws.length : ℚ) := by
  match ws, h with
  | w :: ws, _ =>
    show (combineFrom (combine initGlobal 1 w) 1 ws).mean = _
    rw [combineFrom_mean ws _ 1 le_rfl]
    have hw : (combine initGlobal 1 w).mean = w.mean := by
      simp [combine, initGlobal]
    rw [hw]
    simp only [List.map_cons, List.sum_cons, List.length_cons]
    push_cast
    ring_nf

theorem combine_max_le (g : GlobalStats) (k : ℕ) (w : WindowStats) :
    g.max ≤ (combine g k w).max ∧ w.max ≤ (combine g k w).max := by
  simp only [combine]
  constructor <;> split <;> linarith

theorem combine_min_le (g : GlobalStats) (k : ℕ) (w : WindowStats) :
    (combine g k w).min ≤ g.min ∧ (combine g k w).min ≤ w.min := by
  simp only [combine]
  constructor <;> split <;> linarith

theorem combineFrom_max_mono :
    ∀ (ws : List WindowStats) (g : GlobalStats) (k : ℕ),
      g.max ≤ (combineFrom g k ws).max := by
  intro ws
  induction ws with
  | nil => intro g k; exact le_rfl
  | cons w ws ih =>
    intro g k
    exact le_trans (combine_max_le g (k + 1) w).1 (ih _ (k + 1))

theorem combineFrom_min_mono :
    ∀ (ws : List WindowStats) (g : GlobalStats) (k : ℕ),
      (combineFrom g k ws).min ≤ g.min := by
  intro ws
  induction ws with
  | nil => intro g k; exact le_rfl
  | cons w ws ih =>
    intro g k
    exact le_trans (ih _ (k + 1)) (combine_min_le g (k + 1) w).1

theorem mem_max_le_combineFrom :
    ∀ (ws : List WindowStats) (g : GlobalStats) (k : ℕ) (w : WindowStats),
      w ∈ ws → w.max ≤ (combineFrom g k ws).max := by
  intro ws
  induction ws with
  | nil => intro g k w hw; exact absurd hw (List.not_mem_nil w)
  | cons v ws ih =>
    intro g k w hw
    rcases List.mem_cons.mp hw with rfl | hmem
    · exact le_trans (combine_max_le g (k + 1) w).2 (combineFrom_max_mono ws _ (k + 1))
    · exact ih _ (k + 1) w hmem

theorem combineFrom_min_le_mem :
    ∀ (ws : List WindowStats) (g : GlobalStats) (k : ℕ) (w : WindowStats),
      w ∈ ws → (combineFrom g k ws).min ≤ w.min := by
  intro ws
  induction ws with
  | nil => intro g k w hw; exact absurd hw (List.not_mem_nil w)
  | cons v ws ih =>
    intro g k w hw
    rcases List.mem_cons.mp hw with rfl | hmem
    · exact le_trans (combineFrom_min_mono ws _ (k + 1)) (combine_min_le g (k + 1) w).2
    · exact ih _ (k + 1) w hmem

theorem combineFrom_append (l1 l2 : List WindowStats) :
    ∀ (g : GlobalStats) (k : ℕ),
      combineFrom g k (l1 ++ l2) =
        combineFrom (combineFrom g k l1) (k + l1.length) l2 := by
  induction l1 with
  | nil => intro g k; simp [combineFrom]
  | cons w l1 ih =>
    intro g k
    show combineFrom (combine g (k + 1) w) (k + 1) (l1 ++ l2) = _
    rw [ih _ (k + 1)]
    simp only [combineFrom, List.length_cons]
    have : k + 1 + l1.length = k + (l1.length + 1) := by omega
    rw [this]

/-! ## Extrema and sums over the sample buffer -/

theorem le_foldl_max : ∀ (l : List ℚ) (a : ℚ), a ≤ l.foldl max a := by
  intro l
  induction l with
  | nil => intro a; exact le_rfl
  | cons b t ih =>
    intro a
    exact le_trans (le_max_left a b) (ih (max a b))

theorem mem_le_foldl_max : ∀ (l : List ℚ) (a x : ℚ), x ∈ l → x ≤ l.foldl max a := by
  intro l
  induction l with
  | nil => intro a x hx; exact absurd hx (List.not_mem_nil x)
  | cons b t ih =>
    intro a x hx
    rcases List.mem_cons.mp hx with rfl | hmem
    · exact le_trans (le_max_right a x) (le_foldl_max t (max a x))
    · exact ih (max a b) x hmem

theorem foldl_min_le : ∀ (l : List ℚ) (a : ℚ), l.foldl min a ≤ a := by
  intro l
  induction l with
  | nil => intro a; exact le_rfl
  | cons b t ih =>
    intro a
    exact le_trans (ih (min a b)) (min_le_left a b)

theorem foldl_min_le_mem : ∀ (l : List ℚ) (a x : ℚ), x ∈ l → l.foldl min a ≤ x := by
  intro l
  induction l with
  | nil => intro a x hx; exact absurd hx (List.not_mem_nil x)
  | cons b t ih =>
    intro a x hx
    rcases List.mem_cons.mp hx with rfl | hmem
    · exact le_trans (foldl_min_le t (min a x)) (min_le_right a x)
    · exact ih (min a b) x hmem

theorem le_listMax (l : List ℚ) (x : ℚ) (hx : x ∈ l) : x ≤ listMax l := by
  match l, hx with
  | y :: t, hx =>
    show x ≤ t.foldl max y
    rcases List.mem_cons.mp hx with rfl | hmem
    · exact le_foldl_max t x
    · exact mem_le_foldl_max t y x hmem

theorem listMin_le (l : List ℚ) (x : ℚ) (hx : x ∈ l) : listMin l ≤ x := by
  match l, hx with
  | y :: t, hx =>
    show t.foldl min y ≤ x
    rcases List.mem_cons.mp hx with rfl | hmem
    · exact foldl_min_le t x
    · exact foldl_min_le_mem t y x hmem

theorem foldl_max_mem : ∀ (l : List ℚ) (a : ℚ), l.foldl max a = a ∨ l.foldl max a ∈ l := by
  intro l
  induction l with
  | nil => intro a; exact Or.inl rfl
  | cons b t ih =>
    intro a
    rcases ih (max a b) with h | h
    · rcases max_choice a b with hab | hab
      · exact Or.inl (h.trans hab)
      · exact Or.inr (List.mem_cons.mpr (Or.inl (h.trans hab)))
    · exact Or.inr (List.mem_cons.mpr (Or.inr h))

theorem foldl_min_mem : ∀ (l : List ℚ) (a : ℚ), l.foldl min a = a ∨ l.foldl min a ∈ l := by
  intro l
  induction l with
  | nil => intro a; exact Or.inl rfl
  | cons b t ih =>
    intro a
    rcases ih (min a b) with h | h
    · rcases min_choice a b with hab | hab
      · exact Or.inl (h.trans hab)
      · exact Or.inr (List.mem_cons.mpr (Or.inl (h.trans hab)))
    · exact Or.inr (List.mem_cons.mpr (Or.inr h))

theorem listMax_mem (l : List ℚ) (h : l ≠ []) : listMax l ∈ l := by
  match l, h with
  | y :: t, _ =>
    show t.foldl max y ∈ y :: t
    rcases foldl_max_mem t y with hm | hm
    · exact List.mem_cons.mpr (Or.inl hm)
    · exact List.mem_cons.mpr (Or.inr hm)

theorem listMin_mem (l : List ℚ) (h : l ≠ []) : listMin l ∈ l := by
  match l, h with
  | y :: t, _ =>
    show t.foldl min y ∈ y :: t
    rcases foldl_min_mem t y with hm | hm
    · exact List.mem_cons.mpr (Or.inl hm)
    · exact List.mem_cons.mpr (Or.inr hm)

/-- With the buffer exactly full (`length = N`), the reported window sum
is the sum of the buffer. -/
theorem windowSum_eq_sum (N : ℕ) (buf : List ℚ) (hlen : buf.length = N) :
    windowSum N buf = buf.sum := by
  unfold windowSum
  have hbuf := list_eq_range_map (fun j => buf.getD j 0) buf (fun j hj => rfl)
  rw [hlen] at hbuf
  rw [← hbuf]

theorem sum_le_length_mul_listMax (l : List ℚ) :
    l.sum ≤ (l.length : ℚ) * listMax l := by
  have hb := List.sum_le_card_nsmul l (listMax l) (fun x hx => le_listMax l x hx)
  rwa [nsmul_eq_mul] at hb

theorem length_mul_listMin_le_sum (l : List ℚ) :
    (l.length : ℚ) * listMin l ≤ l.sum := by
  have hb := List.card_nsmul_le_sum l (listMin l) (fun x hx => listMin_le l x hx)
  rwa [nsmul_eq_mul] at hb

/-! ## Whole-client runs -/

theorem runClient_ok (seg : ShmSegment) (d : ℕ) (rpcOk : ℕ → Bool)
    (ms clock : ℕ → ℚ) (n : ℕ) (hseg : segOk seg = true)
    (hok : ∀ t, t < n → rpcOk t = true) :
    runClient true true (some seg) d rpcOk ms clock n =
      (Event.initRobotClient :: traceFrom ms n 0, some (stateAfter ms n)) := by
  show (Event.initRobotClient :: (runLoop seg d rpcOk ms clock n 0 initState).1,
      (runLoop seg d rpcOk ms clock n 0 initState).2) = _
  have h0 : (initState : LoopState) = stateAfter ms 0 := rfl
  rw [h0, runLoop_ok seg d rpcOk ms clock hseg n 0
    (fun t h1 h2 => hok t (by omega))]
  simp

theorem runClient_abort (seg : ShmSegment) (d : ℕ) (rpcOk : ℕ → Bool)
    (ms clock : ℕ → ℚ) (n k : ℕ) (hseg : segOk seg = true)
    (hlt : ∀ t, t < k → rpcOk t = true) (hk : rpcOk k = false) (hkn : k < n) :
    runClient true true (some seg) d rpcOk ms clock n =
      (Event.initRobotClient ::
        (traceFrom ms k 0 ++ [Event.controlUpdate k defaultRobotState]), none) := by
  show (Event.initRobotClient :: (runLoop seg d rpcOk ms clock n 0 initState).1,
      (runLoop seg d rpcOk ms clock n 0 initState).2) = _
  have h0 : (initState : LoopState) = stateAfter ms 0 := rfl
  rw [h0, runLoop_abort seg d rpcOk ms clock k hseg hk n 0 (by omega) (by omega)
    (fun t h1 h2 => hlt t h2)]
  simp

theorem controlUpdate_not_mem_postEvents (s : LoopState) (i j : ℕ) (x : ℚ)
    (r : RobotState) : Event.controlUpdate j r ∉ postEvents s i x := by
  unfold postEvents
  by_cases hw : x > 1 <;> by_cases hc : 0 < i ∧ i % logIters = 0 <;>
    simp [hw, hc]

theorem runLoop_seg_congr (seg1 seg2 : ShmSegment) (d : ℕ) (rpcOk : ℕ → Bool)
    (ms clock : ℕ → ℚ) (h1 : segOk seg1 = true) (h2 : segOk seg2 = true) :
    ∀ (fuel i : ℕ) (s : LoopState),
      runLoop seg1 d rpcOk ms clock fuel i s =
        runLoop seg2 d rpcOk ms clock fuel i s := by
  intro fuel
  induction fuel with
  | zero => intro i s; rfl
  | succ fuel ih =>
    intro i s
    rw [runLoop, runLoop, sendCommand_eq, sendCommand_eq, h1, h2]
    simp only [if_true]
    rw [ih]

theorem controlUpdate_req_default (seg : ShmSegment) (d : ℕ) (rpcOk : ℕ → Bool)
    (ms clock : ℕ → ℚ) :
    ∀ (fuel i : ℕ) (s : LoopState) (j : ℕ) (r : RobotState),
      Event.controlUpdate j r ∈ (runLoop seg d rpcOk ms clock fuel i s).1 →
        r = defaultRobotState := by
  intro fuel
  induction fuel with
  | zero => intro i s j r h; exact absurd h (List.not_mem_nil _)
  | succ fuel ih =>
    intro i s j r h
    rw [runLoop, sendCommand_eq] at h
    by_cases hs : segOk seg
    · rw [hs] at h
      simp only [if_true] at h
      cases hok : rpcOk i <;> rw [hok] at h
      · simp only [Bool.false_eq_true, if_false, List.mem_singleton] at h
        cases h
        rfl
      · simp only [if_true, List.mem_cons, List.mem_append] at h
        rcases h with hcu | hpost | hrest
        · cases hcu; rfl
        · exact absurd hpost (controlUpdate_not_mem_postEvents _ _ _ _ _)
        · exact ih _ _ j r hrest
    · rw [Bool.not_eq_true] at hs
      rw [hs] at h
      simp at h

/-! ## The claims -/

/-- A concrete shared-memory segment holding all five named fields,
used to instantiate the theorems below at a concrete input. -/
def segEx : ShmSegment :=
  [("shm_timestamp", ShmField.timestamp 0),
   ("joint_positions", ShmField.vec [0, 0]),
   ("joint_velocities", ShmField.vec [0, 0]),
   ("joint_torques_measured", ShmField.vec [0, 0]),
   ("joint_torques_external", ShmField.vec [0, 0])]

/-- Claim C10: `SendCommand` dereferences the pointer returned by each of
the five named shared-memory field lookups without a null check; under
the precondition that all five named fields exist, every such dereference
is of a valid pointer and the null-pointer (crash) branch is
unreachable. -/
theorem claim_C10 (seg : ShmSegment) (d : ℕ) (now : ℚ) (ok : Bool)
    (h1 : (findTimestamp seg "shm_timestamp").isSome = true)
    (h2 : (findVec seg "joint_positions").isSome = true)
    (h3 : (findVec seg "joint_velocities").isSome = true)
    (h4 : (findVec seg "joint_torques_measured").isSome = true)
    (h5 : (findVec seg "joint_torques_external").isSome = true) :
    sendCommand seg d now ok = some (defaultRobotState, ok) ∧
      sendCommand seg d now ok ≠ none := by
  have hseg : segOk seg = true := by
    simp [segOk, h1, h2, h3, h4, h5]
  rw [sendCommand_eq, hseg]
  simp

theorem claim_C10_witness :
    (findTimestamp segEx "shm_timestamp").isSome = true ∧
    (findVec segEx "joint_positions").isSome = true ∧
    (findVec segEx "joint_velocities").isSome = true ∧
    (findVec segEx "joint_torques_measured").isSome = true ∧
    (findVec segEx "joint_torques_external").isSome = true ∧
    (sendCommand segEx 2 0 true = some (defaultRobotState, true) ∧
      sendCommand segEx 2 0 true ≠ none) :=
  ⟨by decide, by decide, by decide, by decide, by decide,
   claim_C10 segEx 2 0 true (by decide) (by decide) (by decide) (by decide)
     (by decide)⟩

/-- Claim C9: the `ControlUpdate` request sent on every iteration is a
freshly default-constructed `RobotState`: it does not depend on the
contents of the shared-memory region, so two runs differing only in
shared-memory contents issue identical requests (indeed, identical
traces), and every issued request equals the default-constructed state. -/
theorem claim_C9 (seg1 seg2 : ShmSegment) (mOk iOk : Bool) (d : ℕ)
    (rpcOk : ℕ → Bool) (ms clock : ℕ → ℚ) (n : ℕ)
    (h1 : segOk seg1 = true) (h2 : segOk seg2 = true) :
    runClient mOk iOk (some seg1) d rpcOk ms clock n =
      runClient mOk iOk (some seg2) d rpcOk ms clock n ∧
    (∀ i req,
      Event.controlUpdate i req ∈
          (runClient mOk iOk (some seg1) d rpcOk ms clock n).1 →
        req = defaultRobotState) := by
  constructor
  · unfold runClient
    cases mOk
    · rfl
    · cases iOk
      · rfl
      · simp only [if_true]
        rw [runLoop_seg_congr seg1 seg2 d rpcOk ms clock h1 h2]
  · intro i req hmem
    unfold runClient at hmem
    cases mOk
    · simp at hmem
    · cases iOk
      · simp at hmem
      · simp only [if_true, List.mem_cons] at hmem
        rcases hmem with heq | hmem
        · exact absurd heq (by simp)
        · exact controlUpdate_req_default seg1 d rpcOk ms clock n 0 initState
            i req hmem

theorem claim_C9_witness :
    segOk segEx = true ∧
    (runClient true true (some segEx) 2 (fun _ => true) (fun _ => 0)
        (fun _ => 0) 1 =
      runClient true true (some segEx) 2 (fun _ => true) (fun _ => 0)
        (fun _ => 0) 1 ∧
    (∀ i req,
      Event.controlUpdate i req ∈
          (runClient true true (some segEx) 2 (fun _ => true) (fun _ => 0)
            (fun _ => 0) 1).1 →
        req = defaultRobotState)) :=
  ⟨by decide,
   claim_C9 segEx segEx true true 2 (fun _ => true) (fun _ => 0) (fun _ => 0) 1
     (by decide) (by decide)⟩

/-- Claim C1 (counterexample): with the shared-memory fields absent, the
`InitRobotClient` request still reaches the RPC boundary before the
process aborts, because the client constructor issues the init round trip
before opening the shared-memory segment: the claim that no RPC call is
issued is false. -/
theorem claim_C1_counterexample :
    segOk ([] : ShmSegment) = false ∧
    Event.initRobotClient ∈
      (runClient true true (some ([] : ShmSegment)) 7 (fun _ => true)
        (fun _ => 0) (fun _ => 0) 1).1 ∧
    (runClient true true (some ([] : ShmSegment)) 7 (fun _ => true)
      (fun _ => 0) (fun _ => 0) 1).2 = none := by
  decide

/-- Claim C1 (amended): if the named region or a named field is absent at
startup, no `ControlUpdate` request ever reaches the RPC boundary and
(when at least one iteration is attempted) the process aborts fatally;
the `InitRobotClient` round trip, however, is issued before the region is
opened. -/
theorem claim_C1_amended (metadataOk initOk : Bool) (seg? : Option ShmSegment)
    (d : ℕ) (rpcOk : ℕ → Bool) (ms clock : ℕ → ℚ) (n : ℕ)
    (habs : seg? = none ∨ ∃ seg, seg? = some seg ∧ segOk seg = false) :
    (∀ i req,
      Event.controlUpdate i req ∉
        (runClient metadataOk initOk seg? d rpcOk ms clock n).1) ∧
    (0 < n → (runClient metadataOk initOk seg? d rpcOk ms clock n).2 = none) := by
  unfold runClient
  cases metadataOk
  · simp
  · cases initOk
    · simp
    · rcases habs with rfl | ⟨seg, rfl, hseg⟩
      · simp
      · simp only [if_true]
        constructor
        · intro i req hmem
          rcases n with _ | n
          · simp [runLoop] at hmem
          · rw [runLoop_crash seg d rpcOk ms clock hseg (n + 1) 0 initState
              (by omega)] at hmem
            simp at hmem
        · intro hn
          rcases n with _ | n
          · omega
          · rw [runLoop_crash seg d rpcOk ms clock hseg (n + 1) 0 initState
              (by omega)]

theorem claim_C1_amended_witness :
    ((some ([] : ShmSegment) : Option ShmSegment) = none ∨
      ∃ seg, (some ([] : ShmSegment) : Option ShmSegment) = some seg ∧
        segOk seg = false) ∧
    ((∀ i req,
      Event.controlUpdate i req ∉
        (runClient true true (some ([] : ShmSegment)) 7 (fun _ => true)
          (fun _ => 0) (fun _ => 0) 2).1) ∧
    (0 < 2 → (runClient true true (some ([] : ShmSegment)) 7 (fun _ => true)
      (fun _ => 0) (fun _ => 0) 2).2 = none)) :=
  ⟨Or.inr ⟨[], rfl, by decide⟩,
   claim_C1_amended true true (some []) 7 (fun _ => true) (fun _ => 0)
     (fun _ => 0) 2 (Or.inr ⟨[], rfl, by decide⟩)⟩

/-- Claim C7: for every window with at least one sample (the buffer is
exactly full: `length = N > 0`), the computed window statistics satisfy
`max ≥ mean ≥ min`, and for a single-sample window `max = min = mean`. -/
theorem claim_C7 (N : ℕ) (buf : List ℚ) (hN : 0 < N) (hlen : buf.length = N) :
    (snapshotWindow N buf).min ≤ (snapshotWindow N buf).mean ∧
    (snapshotWindow N buf).mean ≤ (snapshotWindow N buf).max ∧
    (N = 1 → (snapshotWindow N buf).max = (snapshotWindow N buf).mean ∧
      (snapshotWindow N buf).min = (snapshotWindow N buf).mean) := by
  have hne : buf ≠ [] := by
    intro hc
    rw [hc] at hlen
    simp at hlen
    omega
  have hsum := windowSum_eq_sum N buf hlen
  have hNQ : (0 : ℚ) < (N : ℚ) := by exact_mod_cast hN
  have hmax : (snapshotWindow N buf).max = listMax buf := rfl
  have hmin : (snapshotWindow N buf).min = listMin buf := rfl
  have hmean : (snapshotWindow N buf).mean = buf.sum / (N : ℚ) := by
    show windowSum N buf / (N : ℚ) = _
    rw [hsum]
  refine ⟨?_, ?_, ?_⟩
  · rw [hmin, hmean, le_div_iff₀ hNQ]
    have hb := length_mul_listMin_le_sum buf
    rw [hlen] at hb
    linarith [hb]
  · rw [hmax, hmean, div_le_iff₀ hNQ]
    have hb := sum_le_length_mul_listMax buf
    rw [hlen] at hb
    linarith [hb]
  · intro hN1
    have hl1 : buf.length = 1 := by omega
    obtain ⟨x, rfl⟩ := List.length_eq_one.mp hl1
    subst hN1
    constructor
    · show listMax [x] = windowSum 1 [x] / ((1 : ℕ) : ℚ)
      rw [hsum]
      simp [listMax]
    · show listMin [x] = windowSum 1 [x] / ((1 : ℕ) : ℚ)
      rw [hsum]
      simp [listMin]

theorem claim_C7_witness :
    0 < 2 ∧ ([1, 3] : List ℚ).length = 2 ∧
    ((snapshotWindow 2 [1, 3]).min ≤ (snapshotWindow 2 [1, 3]).mean ∧
     (snapshotWindow 2 [1, 3]).mean ≤ (snapshotWindow 2 [1, 3]).max ∧
     (2 = 1 → (snapshotWindow 2 [1, 3]).max = (snapshotWindow 2 [1, 3]).mean ∧
       (snapshotWindow 2 [1, 3]).min = (snapshotWindow 2 [1, 3]).mean)) :=
  ⟨by decide, by decide, claim_C7 2 [1, 3] (by decide) (by decide)⟩

/-- Claim C3: after the `k`-th combine of window means `m_1 .. m_k`, the
running global mean equals `((k-1)/k) * mean_{k-1} + m_k / k`, and hence,
in exact arithmetic, the unweighted arithmetic mean of `m_1 .. m_k`, for
every `k ≥ 1` and every sequence of window means. -/
theorem claim_C3 (ws : List WindowStats) (h : ws ≠ []) :
    (combineAll ws).mean =
      ((ws.length : ℚ) - 1) / (ws.length : ℚ) * (combineAll ws.dropLast).mean +
        (ws.getLast h).mean / (ws.length : ℚ) ∧
    (combineAll ws).mean = (ws.map WindowStats.mean).sum / (ws.length : ℚ) := by
  have hmain := combineAll_mean ws h
  refine ⟨?_, hmain⟩
  have hpos : 0 < ws.length := List.length_pos.mpr h
  by_cases h1 : ws.length = 1
  · obtain ⟨w, rfl⟩ := List.length_eq_one.mp h1
    show (combineAll [w]).mean = _
    have hval : (combineAll [w]).mean = w.mean := by
      show (combine initGlobal 1 w).mean = w.mean
      simp [combine, initGlobal]
    rw [hval]
    show _ = ((1 : ℚ) - 1) / (1 : ℚ) * (combineAll []).mean + w.mean / (1 : ℚ)
    norm_num
  · have h2 : 2 ≤ ws.length := by omega
    have hd : ws.dropLast ≠ [] := by
      intro hc
      have hl := List.length_dropLast ws
      rw [hc] at hl
      simp at hl
      omega
    have hdm := combineAll_mean ws.dropLast hd
    have hsum : (ws.map WindowStats.mean).sum =
        (ws.dropLast.map WindowStats.mean).sum + (ws.getLast h).mean := by
      conv_lhs => rw [← List.dropLast_append_getLast h]
      rw [List.map_append, List.sum_append]
      simp
    have hlen2 : ws.dropLast.length = ws.length - 1 := List.length_dropLast ws
    rw [hmain, hdm, hsum, hlen2]
    have hc1 : ((ws.length - 1 : ℕ) : ℚ) = (ws.length : ℚ) - 1 := by
      push_cast [Nat.cast_sub (by omega : 1 ≤ ws.length)]
      ring
    rw [hc1]
    have hq1 : (ws.length : ℚ) ≠ 0 := Nat.cast_ne_zero.mpr (by omega)
    have hq2 : (ws.length : ℚ) - 1 ≠ 0 := by
      have hge : (2 : ℚ) ≤ (ws.length : ℚ) := by exact_mod_cast h2
      intro hc
      rw [sub_eq_zero] at hc
      rw [hc] at hge
      norm_num at hge
    field_simp
    ring

theorem claim_C3_witness :
    ([⟨1, 0, 2⟩, ⟨3, 1, 6⟩] : List WindowStats) ≠ [] ∧
    (combineAll [⟨1, 0, 2⟩, ⟨3, 1, 6⟩]).mean =
      ((([⟨1, 0, 2⟩, ⟨3, 1, 6⟩] : List WindowStats).map WindowStats.mean).sum /
        ((([⟨1, 0, 2⟩, ⟨3, 1, 6⟩] : List WindowStats).length : ℕ) : ℚ)) :=
  ⟨by decide,
   (claim_C3 [⟨1, 0, 2⟩, ⟨3, 1, 6⟩] (by decide)).2⟩

/-- Claim C6: across every sequence of successive combine calls, the
global max is non-decreasing and the global min is non-increasing, and
after each combine the global max is at least every window max reported
so far and the global min is at most every window min reported so far. -/
theorem claim_C6 (ws : List WindowStats) :
    (∀ j1 j2, j1 ≤ j2 →
      (combineAll (ws.take j1)).max ≤ (combineAll (ws.take j2)).max ∧
      (combineAll (ws.take j2)).min ≤ (combineAll (ws.take j1)).min) ∧
    (∀ j w, w ∈ ws.take j →
      w.max ≤ (combineAll (ws.take j)).max ∧
      (combineAll (ws.take j)).min ≤ w.min) := by
  constructor
  · intro j1 j2 hj
    have hsplit : ws.take j2 = ws.take j1 ++ (ws.take j2).drop j1 := by
      conv_lhs => rw [← List.take_append_drop j1 (ws.take j2)]
      rw [List.take_take, min_eq_left hj]
    constructor
    · rw [hsplit]
      unfold combineAll
      rw [combineFrom_append]
      exact combineFrom_max_mono _ _ _
    · rw [hsplit]
      unfold combineAll
      rw [combineFrom_append]
      exact combineFrom_min_mono _ _ _
  · intro j w hw
    exact ⟨mem_max_le_combineFrom _ _ _ w hw,
      combineFrom_min_le_mem _ _ _ w hw⟩

theorem claim_C6_witness :
    (1 : ℕ) ≤ 2 ∧
    ((combineAll (([⟨1, 0, 2⟩, ⟨3, 1, 6⟩] : List WindowStats).take 1)).max ≤
      (combineAll (([⟨1, 0, 2⟩, ⟨3, 1, 6⟩] : List WindowStats).take 2)).max ∧
     (combineAll (([⟨1, 0, 2⟩, ⟨3, 1, 6⟩] : List WindowStats).take 2)).min ≤
      (combineAll (([⟨1, 0, 2⟩, ⟨3, 1, 6⟩] : List WindowStats).take 1)).min) :=
  ⟨by decide,
   (claim_C6 [⟨1, 0, 2⟩, ⟨3, 1, 6⟩]).1 1 2 (by decide)⟩

/-- Claim C4: a window closes exactly when `i > 0` and `i % N = 0`
(`N = log_iters = 3000`): a run of exactly 3000 iterations produces zero
window reports and zero combines (global reports), a run of 3001
iterations produces exactly one of each, every window report in any run
happens at such a boundary, and every boundary reached in an all-ok run
produces a report. -/
theorem claim_C4 (seg : ShmSegment) (d : ℕ) (rpcOk : ℕ → Bool)
    (ms clock : ℕ → ℚ) (hseg : segOk seg = true)
    (hok : ∀ t, rpcOk t = true) :
    ((runClient true true (some seg) d rpcOk ms clock 3000).1.filter
      isWindowReport).length = 0 ∧
    ((runClient true true (some seg) d rpcOk ms clock 3000).1.filter
      isGlobalReport).length = 0 ∧
    ((runClient true true (some seg) d rpcOk ms clock 3001).1.filter
      isWindowReport).length = 1 ∧
    ((runClient true true (some seg) d rpcOk ms clock 3001).1.filter
      isGlobalReport).length = 1 ∧
    (∀ n j w,
      Event.windowReport j w ∈
          (runClient true true (some seg) d rpcOk ms clock n).1 →
        0 < j ∧ j % logIters = 0) ∧
    (∀ n j, j < n → 0 < j → j % logIters = 0 →
      ∃ w, Event.windowReport j w ∈
        (runClient true true (some seg) d rpcOk ms clock n).1) := by
  have htr : ∀ n, (runClient true true (some seg) d rpcOk ms clock n).1 =
      Event.initRobotClient :: traceFrom ms n 0 := by
    intro n
    rw [runClient_ok seg d rpcOk ms clock n hseg (fun t _ => hok t)]
  have hinitW : isWindowReport Event.initRobotClient = false := rfl
  have hinitG : isGlobalReport Event.initRobotClient = false := rfl
  refine ⟨?_, ?_, ?_, ?_, ?_, ?_⟩
  · rw [htr 3000]
    simp only [List.filter_cons, hinitW, Bool.false_eq_true, if_false]
    rw [filter_windowReport_traceFrom, countClosures_from_zero 3000 (by omega)]
    simp only [logIters]
  · rw [htr 3000]
    simp only [List.filter_cons, hinitG, Bool.false_eq_true, if_false]
    rw [filter_globalReport_traceFrom, countClosures_from_zero 3000 (by omega)]
    simp only [logIters]
  · rw [htr 3001]
    simp only [List.filter_cons, hinitW, Bool.false_eq_true, if_false]
    rw [filter_windowReport_traceFrom, countClosures_from_zero 3001 (by omega)]
    simp only [logIters]
  · rw [htr 3001]
    simp only [List.filter_cons, hinitG, Bool.false_eq_true, if_false]
    rw [filter_globalReport_traceFrom, countClosures_from_zero 3001 (by omega)]
    simp only [logIters]
  · intro n j w hmem
    rw [htr n] at hmem
    rcases List.mem_cons.mp hmem with heq | hmem2
    · exact absurd heq (by simp)
    · have hfacts := (windowReport_mem_traceFrom ms n 0 j w).mp hmem2
      exact ⟨hfacts.2.2.1, hfacts.2.2.2.1⟩
  · intro n j hjn hj0 hjm
    refine ⟨snapshotWindow logIters (bufAfter ms (j + 1)), ?_⟩
    rw [htr n]
    exact List.mem_cons.mpr (Or.inr ((windowReport_mem_traceFrom ms n 0 j _).mpr
      ⟨by omega, by omega, hj0, hjm, rfl⟩))

theorem claim_C4_witness :
    segOk segEx = true ∧
    ((runClient true true (some segEx) 2 (fun _ => true) (fun _ => 0)
        (fun _ => 0) 3000).1.filter isWindowReport).length = 0 ∧
    ((runClient true true (some segEx) 2 (fun _ => true) (fun _ => 0)
        (fun _ => 0) 3001).1.filter isWindowReport).length = 1 :=
  ⟨by decide,
   (claim_C4 segEx 2 (fun _ => true) (fun _ => 0) (fun _ => 0) (by decide)
     (fun t => rfl)).1,
   (claim_C4 segEx 2 (fun _ => true) (fun _ => 0) (fun _ => 0) (by decide)
     (fun t => rfl)).2.2.1⟩

/-- Recognize the `ControlUpdate` request of iteration `k` in a trace. -/
def isControlUpdateAt (k : ℕ) : Event → Bool
  | Event.controlUpdate t _ => t == k
  | _ => false

/-- Claim C5: if the per-iteration round trip reports non-success at
iteration `k`, the run terminates immediately: the trace is exactly the
successful iterations before `k` followed by the lone `ControlUpdate`
request of iteration `k` (so there is no retry: that request appears
exactly once), the run aborts, and no warning or window report for
iteration `k` or any later iteration occurs. -/
theorem claim_C5 (seg : ShmSegment) (d : ℕ) (rpcOk : ℕ → Bool)
    (ms clock : ℕ → ℚ) (n k : ℕ) (hseg : segOk seg = true)
    (hlt : ∀ t, t < k → rpcOk t = true) (hk : rpcOk k = false) (hkn : k < n) :
    runClient true true (some seg) d rpcOk ms clock n =
      (Event.initRobotClient ::
        (traceFrom ms k 0 ++ [Event.controlUpdate k defaultRobotState]),
       none) ∧
    (∀ t y,
      Event.warning t y ∈ (runClient true true (some seg) d rpcOk ms clock n).1 →
        t < k) ∧
    (∀ j w,
      Event.windowReport j w ∈
          (runClient true true (some seg) d rpcOk ms clock n).1 →
        j < k) ∧
    ((runClient true true (some seg) d rpcOk ms clock n).1.filter
      (isControlUpdateAt k)).length = 1 := by
  have hrun := runClient_abort seg d rpcOk ms clock n k hseg hlt hk hkn
  have htr : (runClient true true (some seg) d rpcOk ms clock n).1 =
      Event.initRobotClient ::
        (traceFrom ms k 0 ++ [Event.controlUpdate k defaultRobotState]) := by
    rw [hrun]
  refine ⟨hrun, ?_, ?_, ?_⟩
  · intro t y hmem
    rw [htr] at hmem
    simp only [List.mem_cons, List.mem_append, List.mem_singleton] at hmem
    rcases hmem with h | h | h
    · exact absurd h (by simp)
    · have hfacts := (warning_mem_traceFrom ms k 0 t y).mp h
      omega
    · exact absurd h (by simp)
  · intro j w hmem
    rw [htr] at hmem
    simp only [List.mem_cons, List.mem_append, List.mem_singleton] at hmem
    rcases hmem with h | h | h
    · exact absurd h (by simp)
    · have hfacts := (windowReport_mem_traceFrom ms k 0 j w).mp h
      omega
    · exact absurd h (by simp)
  · rw [htr]
    have hcuinit : isControlUpdateAt k Event.initRobotClient = false := rfl
    simp only [List.filter_cons, hcuinit, Bool.false_eq_true, if_false,
      List.filter_append, List.length_append]
    have hzero : (traceFrom ms k 0).filter (isControlUpdateAt k) = [] := by
      rw [List.filter_eq_nil_iff]
      intro e he
      rcases e with _ | ⟨t, r⟩ | ⟨t, y⟩ | ⟨t, w⟩ | ⟨t, g⟩
      · simp [isControlUpdateAt]
      · have hb := (controlUpdate_mem_traceFrom ms k 0 t r).mp he
        simp only [isControlUpdateAt]
        simp only [beq_iff_eq]
        omega
      · simp [isControlUpdateAt]
      · simp [isControlUpdateAt]
      · simp [isControlUpdateAt]
    rw [hzero]
    simp [isControlUpdateAt]

theorem claim_C5_witness :
    segOk segEx = true ∧ (∀ t, t < 2 → (fun t => decide (t ≠ 2)) t = true) ∧
    (fun t => decide (t ≠ 2)) 2 = false ∧ 2 < 4 ∧
    (runClient true true (some segEx) 1 (fun t => decide (t ≠ 2)) (fun _ => 0)
        (fun _ => 0) 4 =
      (Event.initRobotClient ::
        (traceFrom (fun _ => 0) 2 0 ++
          [Event.controlUpdate 2 defaultRobotState]),
       none)) :=
  ⟨by decide, by decide, by decide, by decide,
   (claim_C5 segEx 1 (fun t => decide (t ≠ 2)) (fun _ => 0) (fun _ => 0) 4 2
     (by decide) (by decide) (by decide) (by decide)).1⟩

/-- Claim C2: at every closure (`i > 0` and `i mod N = 0`) the reported
window is computed over exactly `min(i+1, N)` recorded samples — the
buffer holds, as a multiset, exactly the `N` most recently recorded
samples (iterations `i-N+1` through `i`), never an uninitialized slot or
a sample overwritten by a later iteration — and the window report events
of any all-ok run at iteration `i` carry precisely the statistics of that
buffer. -/
theorem claim_C2 (ms : ℕ → ℚ) (i : ℕ) (h0 : 0 < i) (hm : i % logIters = 0) :
    (bufAfter ms (i + 1)).length = min (i + 1) logIters ∧
    (bufAfter ms (i + 1)).Perm
      ((List.range logIters).map (fun j => ms (i - logIters + 1 + j))) ∧
    (∀ (seg : ShmSegment) (d : ℕ) (rpcOk : ℕ → Bool) (clock : ℕ → ℚ)
        (n : ℕ) (w : WindowStats),
      segOk seg = true → (∀ t, rpcOk t = true) →
      Event.windowReport i w ∈
          (runClient true true (some seg) d rpcOk ms clock n).1 →
        w = snapshotWindow logIters (bufAfter ms (i + 1))) := by
  refine ⟨bufAfter_length ms (i + 1), bufAfter_closure_perm ms i h0 hm, ?_⟩
  intro seg d rpcOk clock n w hseg hok hmem
  have htr : (runClient true true (some seg) d rpcOk ms clock n).1 =
      Event.initRobotClient :: traceFrom ms n 0 := by
    rw [runClient_ok seg d rpcOk ms clock n hseg (fun t _ => hok t)]
  rw [htr] at hmem
  rcases List.mem_cons.mp hmem with heq | hmem2
  · exact absurd heq (by simp)
  · exact ((windowReport_mem_traceFrom ms n 0 i w).mp hmem2).2.2.2.2

theorem claim_C2_witness :
    0 < 3000 ∧ 3000 % logIters = 0 ∧
    ((bufAfter (fun t : ℕ => (t : ℚ)) (3000 + 1)).length =
        min (3000 + 1) logIters ∧
     (bufAfter (fun t : ℕ => (t : ℚ)) (3000 + 1)).Perm
       ((List.range logIters).map
         (fun j : ℕ => ((3000 - logIters + 1 + j : ℕ) : ℚ)))) :=
  ⟨by decide, by decide,
   ⟨(claim_C2 (fun t : ℕ => (t : ℚ)) 3000 (by decide) (by decide)).1,
    (claim_C2 (fun t : ℕ => (t : ℚ)) 3000 (by decide) (by decide)).2.1⟩⟩

/-- The measured-time oracle of end-to-end scenario 2: one 1.5 ms sample
(iteration 5) among otherwise 0.1 ms samples. -/
def msSpike : ℕ → ℚ := fun t => if t = 5 then 3 / 2 else 1 / 10

theorem snapshotWindow_max (N : ℕ) (buf : List ℚ) :
    (snapshotWindow N buf).max = listMax buf := rfl

theorem msSpike_le (t : ℕ) : msSpike t ≤ 3 / 2 := by
  unfold msSpike
  split <;> norm_num

theorem msSpike_gt_iff (t : ℕ) : 1 < msSpike t ↔ t = 5 := by
  unfold msSpike
  by_cases h : t = 5
  · simp [h]
    norm_num
  · simp [h]
    norm_num

theorem countOver_msSpike : ∀ (fuel i : ℕ),
    countOver msSpike fuel i = if i ≤ 5 ∧ 5 < i + fuel then 1 else 0 := by
  intro fuel
  induction fuel with
  | zero =>
    intro i
    show 0 = if i ≤ 5 ∧ 5 < i + 0 then 1 else 0
    rw [if_neg (by omega)]
  | succ fuel ih =>
    intro i
    rw [countOver, ih (i + 1)]
    by_cases h5 : i = 5
    · rw [if_pos ((msSpike_gt_iff i).mpr h5)]
      split_ifs <;> omega
    · rw [if_neg (fun hc => h5 ((msSpike_gt_iff i).mp hc))]
      split_ifs <;> omega

/-- Claim C8: the warning monitor emits a warning for a sample iff the
sample is strictly greater than 1.0 ms, and never alters control flow
(an all-ok run completes with the same statistics state regardless of
warnings); injecting one 1.5 ms sample among 0.1 ms samples in a
3001-iteration run yields exactly one warning line and a window max of
1.5 for the window that closes at iteration 3000. -/
theorem claim_C8 (seg : ShmSegment) (d : ℕ) (rpcOk : ℕ → Bool)
    (ms clock : ℕ → ℚ) (n : ℕ) (hseg : segOk seg = true)
    (hok : ∀ t, rpcOk t = true) :
    (∀ j y,
      Event.warning j y ∈
          (runClient true true (some seg) d rpcOk ms clock n).1 ↔
        (j < n ∧ y = ms j ∧ 1 < ms j)) ∧
    (runClient true true (some seg) d rpcOk ms clock n).2 =
      some (stateAfter ms n) ∧
    ((runClient true true (some seg) d rpcOk msSpike clock 3001).1.filter
      isWarning).length = 1 ∧
    (∃ w, Event.windowReport 3000 w ∈
        (runClient true true (some seg) d rpcOk msSpike clock 3001).1 ∧
      w.max = 3 / 2) := by
  have htr : ∀ (f : ℕ → ℚ) (m : ℕ),
      (runClient true true (some seg) d rpcOk f clock m).1 =
        Event.initRobotClient :: traceFrom f m 0 := by
    intro f m
    rw [runClient_ok seg d rpcOk f clock m hseg (fun t _ => hok t)]
  refine ⟨?_, ?_, ?_, ?_⟩
  · intro j y
    rw [htr ms n]
    constructor
    · intro hmem
      rcases List.mem_cons.mp hmem with heq | hmem2
      · exact absurd heq (by simp)
      · have hfacts := (warning_mem_traceFrom ms n 0 j y).mp hmem2
        exact ⟨by omega, hfacts.2.2.1, hfacts.2.2.2⟩
    · rintro ⟨hj, hy, hgt⟩
      exact List.mem_cons.mpr (Or.inr ((warning_mem_traceFrom ms n 0 j y).mpr
        ⟨by omega, by omega, hy, hgt⟩))
  · rw [runClient_ok seg d rpcOk ms clock n hseg (fun t _ => hok t)]
  · rw [htr msSpike 3001]
    have hinit : isWarning Event.initRobotClient = false := rfl
    simp only [List.filter_cons, hinit, Bool.false_eq_true, if_false]
    rw [filter_warning_traceFrom, countOver_msSpike]
    norm_num
  · refine ⟨snapshotWindow logIters (bufAfter msSpike (3000 + 1)), ?_, ?_⟩
    · rw [htr msSpike 3001]
      refine List.mem_cons.mpr (Or.inr ?_)
      refine (windowReport_mem_traceFrom msSpike 3001 0 3000 _).mpr ?_
      exact ⟨by omega, by omega, by omega, by simp [logIters], rfl⟩
    · rw [snapshotWindow_max]
      have hperm := bufAfter_closure_perm msSpike 3000 (by omega)
        (by simp [logIters])
      have hne : bufAfter msSpike (3000 + 1) ≠ [] := by
        have hl := bufAfter_length msSpike (3000 + 1)
        intro hc
        rw [hc] at hl
        simp [logIters] at hl
      have hub : listMax (bufAfter msSpike (3000 + 1)) ≤ 3 / 2 := by
        have hmem := listMax_mem _ hne
        have hmem2 := hperm.mem_iff.mp hmem
        rw [List.mem_map] at hmem2
        obtain ⟨j, hj, hval⟩ := hmem2
        rw [← hval]
        exact msSpike_le _
      have hlb : (3 : ℚ) / 2 ≤ listMax (bufAfter msSpike (3000 + 1)) := by
        apply le_listMax
        apply hperm.symm.mem_iff.mp
        apply List.mem_map.mpr
        refine ⟨4, List.mem_range.mpr (by simp [logIters]), ?_⟩
        show msSpike (3000 - logIters + 1 + 4) = 3 / 2
        have h45 : 3000 - logIters + 1 + 4 = 5 := by simp [logIters]
        rw [h45]
        norm_num [msSpike]
      linarith

theorem claim_C8_witness :
    segOk segEx = true ∧
    (runClient true true (some segEx) 2 (fun _ => true) (fun _ => 0)
        (fun _ => 0) 1).2 = some (stateAfter (fun _ => 0) 1) :=
  ⟨by decide,
   (claim_C8 segEx 2 (fun _ => true) (fun _ => 0) (fun _ => 0) 1 (by decide)
     (fun t => rfl)).2.1⟩
